import Mathlib

/-!
Verification development for the finalfusion-utils query and evaluation
engine.  The Rust sources are embedded shallowly:

* `src/compute_accuracy.rs` — analogy accuracy evaluator (`Counts`,
  `Eval::eval_analogy`, `read_analogies`, the report produced on `Drop`).
* `src/analogy.rs` — the analogy CLI loop and its exclusion mask.
* `src/quantize.rs` — quantizer configuration checks and the loss report.
* `src/reconstruct.rs` — reconstruction of quantized embedding matrices.

Machine floats (`f32`) are modelled as exact rationals (`ℚ`); the square
root used by the distance primitives is an explicit function parameter,
since those primitives are external collaborator code.  Rust's
`BTreeMap<String, Counts>` is modelled as an association list whose keys
are kept in strictly increasing (lexicographic) order.
-/

namespace FFUtils

/-! ### `Counts` (compute_accuracy.rs, lines 96-112) -/

/-- Per-section aggregate, `struct Counts` from `compute_accuracy.rs`. -/
structure Counts where
  n_correct : Nat
  n_instances : Nat
  n_skipped : Nat
  sum_cos : ℚ
deriving Repr, DecidableEq

/-- `Counts::default()`: all counters zero. -/
def Counts.init : Counts := ⟨0, 0, 0, 0⟩

/-- `BTreeMap<String, Counts>` as an association list sorted strictly by key. -/
abbrev SectionCounts := List (String × Counts)

/-- `section_counts.entry(key).or_default()` followed by the mutation `f`:
update the entry for `key` with `f`, inserting `f Counts.init` at the sorted
position when the key is absent. -/
def updateSection (m : SectionCounts) (k : String) (f : Counts → Counts) :
    SectionCounts :=
  match m with
  | [] => [(k, f Counts.init)]
  | (k', c) :: rest =>
    if k < k' then (k, f Counts.init) :: (k', c) :: rest
    else if k = k' then (k', f c) :: rest
    else (k', c) :: updateSection rest k f

/-- Observation of the map: the counts stored for a key (`Counts.init` when
the key is absent, matching `entry(..).or_default()`). -/
def getCounts (m : SectionCounts) (k : String) : Counts :=
  match m with
  | [] => Counts.init
  | (k', c) :: rest => if k = k' then c else getCounts rest k

/-- Keys are in strictly increasing lexicographic order (the `BTreeMap`
iteration-order invariant). -/
def keysSorted (m : SectionCounts) : Prop :=
  m.Pairwise (fun p q => p.1 < q.1)

/-! ### Test instances and the evaluator (compute_accuracy.rs) -/

/-- `struct Instance` from `compute_accuracy.rs`, lines 222-226. -/
structure Instance where
  sect : String
  query : String × String × String
  answer : String
deriving Repr, DecidableEq

/-- Collaborator view of the loaded embedding collection, as used by the
accuracy evaluator: `embeddings.vocab().idx(w).and_then(|i| i.word()).is_some()`
(whether `w` is a vocabulary word) and the finalfusion `Analogy::analogy`
primitive at `k = 1`, returning the single best candidate together with its
cosine similarity, or `none` when the query cannot be resolved. -/
structure AnalogyOracle where
  knownWord : String → Bool
  analogy1 : String → String → String → Option (String × ℚ)

/-- `Eval::eval_analogy` (compute_accuracy.rs, lines 129-164). -/
def eval_analogy (E : AnalogyOracle) (m : SectionCounts) (inst : Instance) :
    SectionCounts :=
  if E.knownWord inst.answer = false then
    updateSection m inst.sect (fun c => { c with n_skipped := c.n_skipped + 1 })
  else
    let p : Bool × ℚ :=
      match E.analogy1 inst.query.1 inst.query.2.1 inst.query.2.2 with
      | some r => (r.1 == inst.answer, r.2)
      | none => (false, 0)
    updateSection m inst.sect (fun c =>
      { c with
        n_instances := c.n_instances + 1
        n_correct := c.n_correct + (if p.1 then 1 else 0)
        sum_cos := c.sum_cos + p.2 })

/-- `process_analogies` (compute_accuracy.rs, lines 257-270): every instance
is evaluated exactly once against the shared section-counts map, which starts
empty (`Eval::new`).  The parallel `par_iter` aggregation is modelled as a
fold; order-independence is proved separately. -/
def process_analogies (E : AnalogyOracle) (instances : List Instance) :
    SectionCounts :=
  instances.foldl (eval_analogy E) []

/-! ### Basic map lemmas -/

theorem getCounts_nil (k : String) : getCounts [] k = Counts.init := rfl

theorem getCounts_not_mem {m : SectionCounts} {k : String}
    (h : ∀ p ∈ m, p.1 ≠ k) : getCounts m k = Counts.init := by
  induction m with
  | nil => rfl
  | cons p rest ih =>
    have hk : k ≠ p.1 := fun he => h p (by simp) (he ▸ rfl)
    simp only [getCounts, if_neg hk]
    exact ih fun q hq => h q (by simp [hq])

theorem mem_updateSection (m : SectionCounts) (k : String)
    (f : Counts → Counts) :
    ∀ q ∈ updateSection m k f, q.1 = k ∨ q ∈ m := by
  induction m with
  | nil =>
    intro q hq
    simp only [updateSection, List.mem_singleton] at hq
    left; rw [hq]
  | cons p rest ih =>
    obtain ⟨k', c⟩ := p
    intro q hq
    simp only [updateSection] at hq
    by_cases h1 : k < k'
    · rw [if_pos h1] at hq
      rcases List.mem_cons.mp hq with h | h
      · left; rw [h]
      · right; exact h
    · by_cases h2 : k = k'
      · rw [if_neg h1, if_pos h2] at hq
        rcases List.mem_cons.mp hq with h | h
        · left; rw [h]; exact h2.symm
        · right; exact List.mem_cons_of_mem _ h
      · rw [if_neg h1, if_neg h2] at hq
        rcases List.mem_cons.mp hq with h | h
        · right; rw [h]; exact List.mem_cons_self _ _
        · rcases ih q h with h' | h'
          · left; exact h'
          · right; exact List.mem_cons_of_mem _ h'

theorem getCounts_updateSection (m : SectionCounts) (k : String)
    (f : Counts → Counts) (s : String) (hm : keysSorted m) :
    getCounts (updateSection m k f) s =
      if s = k then f (getCounts m k) else getCounts m s := by
  induction m with
  | nil =>
    by_cases hs : s = k
    · simp only [updateSection, getCounts, if_pos hs]
    · simp only [updateSection, getCounts, if_neg hs]
  | cons p rest ih =>
    obtain ⟨k', c⟩ := p
    have hrest : keysSorted rest := (List.pairwise_cons.mp hm).2
    have hhead : ∀ q ∈ rest, k' < q.1 := fun q hq =>
      (List.pairwise_cons.mp hm).1 q hq
    simp only [updateSection]
    by_cases hlt : k < k'
    · rw [if_pos hlt]
      have hkk' : k ≠ k' := ne_of_lt hlt
      have hknotrest : ∀ q ∈ rest, q.1 ≠ k := fun q hq he =>
        absurd (he ▸ hlt.trans (hhead q hq)) (lt_irrefl _)
      by_cases hs : s = k
      · subst hs
        simp only [getCounts, if_pos rfl, if_neg hkk']
        rw [getCounts_not_mem hknotrest]
      · simp only [getCounts, if_neg hs]
    · rw [if_neg hlt]
      by_cases heq : k = k'
      · rw [if_pos heq]
        subst heq
        by_cases hs : s = k
        · simp [getCounts, hs]
        · simp [getCounts, hs]
      · rw [if_neg heq]
        by_cases hsk' : s = k'
        · have hsk : ¬s = k := by rw [hsk']; exact fun h => heq h.symm
          simp only [getCounts, if_pos hsk', if_neg hsk]
        · simp only [getCounts, if_neg hsk', if_neg heq]
          exact ih hrest

theorem keysSorted_updateSection (m : SectionCounts) (k : String)
    (f : Counts → Counts) (hm : keysSorted m) :
    keysSorted (updateSection m k f) := by
  induction m with
  | nil =>
    simp only [updateSection]
    exact List.pairwise_singleton _ _
  | cons p rest ih =>
    obtain ⟨k', c⟩ := p
    have hrest : keysSorted rest := (List.pairwise_cons.mp hm).2
    have hhead : ∀ q ∈ rest, k' < q.1 := fun q hq =>
      (List.pairwise_cons.mp hm).1 q hq
    simp only [updateSection]
    by_cases hlt : k < k'
    · rw [if_pos hlt]
      refine List.pairwise_cons.mpr ⟨?_, hm⟩
      intro q hq
      rcases List.mem_cons.mp hq with h | h
      · rw [h]; exact hlt
      · exact hlt.trans (hhead q h)
    · rw [if_neg hlt]
      by_cases heq : k = k'
      · rw [if_pos heq]
        exact List.pairwise_cons.mpr ⟨hhead, hrest⟩
      · rw [if_neg heq]
        have hk'k : k' < k := by
          rcases lt_trichotomy k k' with h | h | h
          · exact absurd h hlt
          · exact absurd h heq
          · exact h
        refine List.pairwise_cons.mpr ⟨?_, ih hrest⟩
        intro q hq
        rcases mem_updateSection rest k f q hq with h | h
        · rw [h]; exact hk'k
        · exact hhead q h

theorem updateSection_nil (k : String) (f : Counts → Counts) :
    updateSection [] k f = [(k, f Counts.init)] := rfl

theorem updateSection_cons_lt {k k' : String} (h : k < k') {c : Counts}
    {rest : SectionCounts} {f : Counts → Counts} :
    updateSection ((k', c) :: rest) k f = (k, f Counts.init) :: (k', c) :: rest := by
  simp only [updateSection]
  rw [if_pos h]

theorem updateSection_cons_eq {k k' : String} (h : k = k') {c : Counts}
    {rest : SectionCounts} {f : Counts → Counts} :
    updateSection ((k', c) :: rest) k f = (k', f c) :: rest := by
  simp only [updateSection]
  rw [if_neg (by rw [h]; exact lt_irrefl k'), if_pos h]

theorem updateSection_cons_gt {k k' : String} (h : k' < k) {c : Counts}
    {rest : SectionCounts} {f : Counts → Counts} :
    updateSection ((k', c) :: rest) k f = (k', c) :: updateSection rest k f := by
  simp only [updateSection]
  rw [if_neg (asymm h), if_neg (ne_of_gt h)]

/-- Two `updateSection` updates commute, provided the two update functions
commute when they hit the same key. -/
theorem updateSection_comm (m : SectionCounts) (k₁ k₂ : String)
    (f g : Counts → Counts) (hfg : ∀ c, f (g c) = g (f c)) :
    updateSection (updateSection m k₁ f) k₂ g =
      updateSection (updateSection m k₂ g) k₁ f := by
  induction m with
  | nil =>
    rw [updateSection_nil, updateSection_nil]
    rcases lt_trichotomy k₁ k₂ with h | h | h
    · rw [updateSection_cons_gt h, updateSection_cons_lt h, updateSection_nil]
    · rw [updateSection_cons_eq h.symm, updateSection_cons_eq h, hfg, h]
    · rw [updateSection_cons_lt h, updateSection_cons_gt h, updateSection_nil]
  | cons p rest ih =>
    obtain ⟨k', c⟩ := p
    rcases lt_trichotomy k₁ k' with h₁ | h₁ | h₁ <;>
      rcases lt_trichotomy k₂ k' with h₂ | h₂ | h₂
    · -- both insert before the head
      rcases lt_trichotomy k₁ k₂ with h | h | h
      · rw [updateSection_cons_lt h₁, updateSection_cons_gt h,
          updateSection_cons_lt h₂, updateSection_cons_lt h]
      · rw [updateSection_cons_lt h₁, updateSection_cons_lt h₂,
          updateSection_cons_eq h.symm, updateSection_cons_eq h, hfg, h]
      · rw [updateSection_cons_lt h₂, updateSection_cons_gt h,
          updateSection_cons_lt h₁, updateSection_cons_lt h]
    · -- k₁ < k' = k₂
      have h12 : k₁ < k₂ := h₂ ▸ h₁
      rw [updateSection_cons_lt h₁, updateSection_cons_eq h₂,
        updateSection_cons_gt h12, updateSection_cons_eq h₂,
        updateSection_cons_lt h₁]
    · -- k₁ < k' < k₂
      have h12 : k₁ < k₂ := h₁.trans h₂
      rw [updateSection_cons_lt h₁, updateSection_cons_gt h12,
        updateSection_cons_gt h₂, updateSection_cons_lt h₁]
    · -- k₂ < k' = k₁
      have h21 : k₂ < k₁ := h₂.trans_eq h₁.symm
      rw [updateSection_cons_eq h₁, updateSection_cons_lt h₂,
        updateSection_cons_lt h₂, updateSection_cons_gt h21,
        updateSection_cons_eq h₁]
    · -- k₁ = k' = k₂
      rw [updateSection_cons_eq h₁, updateSection_cons_eq h₂,
        updateSection_cons_eq h₂, updateSection_cons_eq h₁, hfg]
    · -- k₂ > k' = k₁
      rw [updateSection_cons_eq h₁, updateSection_cons_gt h₂,
        updateSection_cons_gt h₂, updateSection_cons_eq h₁]
    · -- k₂ < k' < k₁
      have h21 : k₂ < k₁ := h₂.trans h₁
      rw [updateSection_cons_gt h₁, updateSection_cons_lt h₂,
        updateSection_cons_lt h₂, updateSection_cons_gt h21,
        updateSection_cons_gt h₁]
    · -- k₁ > k' = k₂
      rw [updateSection_cons_gt h₁, updateSection_cons_eq h₂,
        updateSection_cons_eq h₂, updateSection_cons_gt h₁]
    · -- both recurse past the head
      rw [updateSection_cons_gt h₁, updateSection_cons_gt h₂,
        updateSection_cons_gt h₂, updateSection_cons_gt h₁, ih]

/-- The update `eval_analogy` applies to its instance's section bucket. -/
def instUpdate (E : AnalogyOracle) (inst : Instance) : Counts → Counts :=
  fun c =>
    if E.knownWord inst.answer = false then
      { c with n_skipped := c.n_skipped + 1 }
    else
      let p : Bool × ℚ :=
        match E.analogy1 inst.query.1 inst.query.2.1 inst.query.2.2 with
        | some r => (r.1 == inst.answer, r.2)
        | none => (false, 0)
      { c with
        n_instances := c.n_instances + 1
        n_correct := c.n_correct + (if p.1 then 1 else 0)
        sum_cos := c.sum_cos + p.2 }

theorem eval_analogy_eq_update (E : AnalogyOracle) (m : SectionCounts)
    (inst : Instance) :
    eval_analogy E m inst = updateSection m inst.sect (instUpdate E inst) := by
  unfold eval_analogy instUpdate
  by_cases h : E.knownWord inst.answer = false <;> simp [h]

theorem instUpdate_comm (E : AnalogyOracle) (i j : Instance) (c : Counts) :
    instUpdate E i (instUpdate E j c) = instUpdate E j (instUpdate E i c) := by
  obtain ⟨w, x, y, z⟩ := c
  unfold instUpdate
  by_cases hi : E.knownWord i.answer = false <;>
    by_cases hj : E.knownWord j.answer = false <;>
      rcases E.analogy1 i.query.1 i.query.2.1 i.query.2.2 with _ | ⟨wi, qi⟩ <;>
        rcases E.analogy1 j.query.1 j.query.2.1 j.query.2.2 with _ | ⟨wj, qj⟩
  all_goals simp [hi, hj, Counts.mk.injEq]
  all_goals repeat' apply And.intro
  all_goals ring

theorem eval_analogy_comm (E : AnalogyOracle) (m : SectionCounts)
    (i j : Instance) :
    eval_analogy E (eval_analogy E m i) j =
      eval_analogy E (eval_analogy E m j) i := by
  rw [eval_analogy_eq_update, eval_analogy_eq_update, eval_analogy_eq_update,
    eval_analogy_eq_update]
  exact updateSection_comm m i.sect j.sect _ _ (fun c => instUpdate_comm E i j c)

theorem foldl_eval_perm (E : AnalogyOracle) {l₁ l₂ : List Instance}
    (h : l₁.Perm l₂) :
    ∀ m, l₁.foldl (eval_analogy E) m = l₂.foldl (eval_analogy E) m := by
  induction h with
  | nil => intro m; rfl
  | cons x _ ih => intro m; simp only [List.foldl_cons]; exact ih _
  | swap x y l => intro m; simp only [List.foldl_cons]; rw [eval_analogy_comm]
  | trans _ _ ih₁ ih₂ => intro m; rw [ih₁ m, ih₂ m]

theorem keysSorted_process (E : AnalogyOracle) (insts : List Instance) :
    keysSorted (process_analogies E insts) := by
  suffices h : ∀ m, keysSorted m → keysSorted (insts.foldl (eval_analogy E) m) by
    exact h [] (by simp [keysSorted])
  induction insts with
  | nil => intro m hm; simpa using hm
  | cons i rest ih =>
    intro m hm
    simp only [List.foldl_cons]
    apply ih
    unfold eval_analogy
    split
    · exact keysSorted_updateSection _ _ _ hm
    · exact keysSorted_updateSection _ _ _ hm

/-! ### The report printed by `Drop for Eval` (compute_accuracy.rs, 167-220)

Rust prints `f64`/`f32` quotients with `{:.2}`-style formatting; a quotient
is modelled as the pair of its numerator and denominator (`DivVal`), kept
unevaluated so that a division by zero — which IEEE arithmetic performs
silently, yielding NaN — is visible in the model.  Exactly in ℚ,
`(a / b) * 100 = (a * 100) / b`, so the percentage scalings are folded into
the numerator. -/

/-- A division as performed by a report line: numerator and denominator. -/
structure DivVal where
  num : ℚ
  den : ℚ
deriving Repr, DecidableEq

/-- One line of the accuracy report. -/
inductive ReportLine where
  | noInstances (sect : String)
  | sectionLine (sect : String) (n_correct n_instances : Nat)
      (accuracy avg_cos : DivVal) (n_skipped : Nat)
  | totalLine (n_correct n_instances : Nat) (accuracy avg_cos : DivVal)
  | skippedLine (n_skipped n_instances_with_skipped : Nat) (ratio : DivVal)
deriving Repr, DecidableEq

/-- `Eval::print_section_accuracy` (compute_accuracy.rs, lines 167-182):
guards `n_instances == 0` with the "no evaluation instances" message,
otherwise prints `(n_correct / n_instances) * 100` and
`sum_cos / n_instances`. -/
def print_section_accuracy (sect : String) (c : Counts) : ReportLine :=
  if c.n_instances = 0 then
    .noInstances sect
  else
    .sectionLine sect c.n_correct c.n_instances
      ⟨(c.n_correct : ℚ) * 100, (c.n_instances : ℚ)⟩
      ⟨c.sum_cos, (c.n_instances : ℚ)⟩
      c.n_skipped

/-- The report produced by `impl Drop for Eval` (compute_accuracy.rs, lines
185-220): every section of the `BTreeMap`, in iteration (= key) order,
followed unconditionally by the `Total:` and `Skipped:` lines built from the
summed counters. -/
def drop_report (m : SectionCounts) : List ReportLine :=
  let n_correct := (m.map (fun p => p.2.n_correct)).sum
  let n_instances := (m.map (fun p => p.2.n_instances)).sum
  let n_skipped := (m.map (fun p => p.2.n_skipped)).sum
  let n_instances_with_skipped := n_instances + n_skipped
  let cos := (m.map (fun p => p.2.sum_cos)).sum
  (m.map (fun p => print_section_accuracy p.1 p.2))
    ++ [ReportLine.totalLine n_correct n_instances
          ⟨(n_correct : ℚ) * 100, (n_instances : ℚ)⟩
          ⟨cos, (n_instances : ℚ)⟩,
        ReportLine.skippedLine n_skipped n_instances_with_skipped
          ⟨(n_skipped : ℚ) * 100, (n_instances_with_skipped : ℚ)⟩]

/-- Follows the spec's words, for comparison with `drop_report`: "the two
final global divisions (overall accuracy `n_correct/n_instances` and skip
ratio `n_skipped/(n_instances+n_skipped)`) are guarded against zero-instance
corpora in the same way" — i.e. no global line ever performs a division
whose denominator is zero. -/
def globals_guarded (lines : List ReportLine) : Bool :=
  lines.all fun l =>
    match l with
    | .totalLine _ _ accuracy avg_cos => accuracy.den ≠ 0 && avg_cos.den ≠ 0
    | .skippedLine _ _ ratio => ratio.den ≠ 0
    | _ => true

/-- Global summed counters, as computed in `Drop for Eval`. -/
def totalCorrect (m : SectionCounts) : Nat := (m.map (fun p => p.2.n_correct)).sum

def totalInstances (m : SectionCounts) : Nat :=
  (m.map (fun p => p.2.n_instances)).sum

def totalSkipped (m : SectionCounts) : Nat := (m.map (fun p => p.2.n_skipped)).sum

/-! ### `read_analogies` (compute_accuracy.rs, lines 228-255)

`quadruple[0]`..`quadruple[3]` index the whitespace-split line without any
length check; a line with fewer than four tokens makes the Rust code panic
with an out-of-bounds index, aborting the process.  The panic is modelled as
`none`. -/

/-- Rust's `str::split_whitespace`: split on runs of whitespace, dropping
empty substrings.  Implemented over the character list (grouping by a right
fold, cutting at every whitespace character, then discarding empty groups)
so that it evaluates inside the kernel. -/
def split_whitespace (s : String) : List String :=
  ((s.toList.foldr
      (fun c groups =>
        if c.isWhitespace then [] :: groups
        else
          match groups with
          | [] => [[c]]
          | g :: gs => (c :: g) :: gs)
      ([] : List (List Char))).filter (fun g => g ≠ [])).map List.asString

/-- Rust's `str::trim`: drop leading and trailing whitespace. -/
def trim_str (s : String) : String :=
  (((s.toList.dropWhile Char.isWhitespace).reverse.dropWhile
      Char.isWhitespace).reverse).asString

/-- The loop body of `read_analogies`, carrying the current section label
(`line.chars().skip(2).collect()` updates it on a `": "` header line). -/
def read_analogies_go (sect : String) : List String → Option (List Instance)
  | [] => some []
  | line :: rest =>
    if line.startsWith ": " then
      read_analogies_go ((line.toList.drop 2).asString) rest
    else
      match split_whitespace line with
      | t0 :: t1 :: t2 :: t3 :: _ =>
        (read_analogies_go sect rest).map
          (fun is => { sect := sect, query := (t0, t1, t2), answer := t3 } :: is)
      | _ => none

/-- `read_analogies`: the section label starts out empty. -/
def read_analogies (lines : List String) : Option (List Instance) :=
  read_analogies_go "" lines

/-! ### analogy.rs — the analogy CLI -/

/-- The loaded embedding collection as the analogy tool sees it: an ordered
vocabulary of words, each with its vector (exact rationals for `f32`). -/
structure EmbeddingCollection where
  words : List (String × List ℚ)

/-- Vocabulary lookup (`index_of`/embedding retrieval collaborator). -/
def lookupVec (E : EmbeddingCollection) (w : String) : Option (List ℚ) :=
  (E.words.find? (fun p => p.1 == w)).map Prod.snd

def vadd (u v : List ℚ) : List ℚ := List.zipWith (· + ·) u v

def vsub (u v : List ℚ) : List ℚ := List.zipWith (· - ·) u v

/-- Modelled from the spec: the finalfusion crate's
`Analogy::analogy_masked`, which `analogy.rs` calls but whose source is
external collaborator code, not part of this repository.  Per spec §4.2:
compute the target `vec(b) - vec(a) + vec(c)`, rank all vocabulary words by
similarity to the target (the similarity primitive is itself a collaborator,
taken here as the `score` parameter), exclude from the candidates each of
{a, b, c} whose mask flag is true, and return the top `k`; if any of the
three tokens is absent from the vocabulary, fail with the 3-element success
mask of which tokens were resolvable. -/
def analogy_masked (score : List ℚ → List ℚ → ℚ) (E : EmbeddingCollection)
    (a b c : String) (mask : Bool × Bool × Bool) (k : Nat) :
    Except (List Bool) (List (String × ℚ)) :=
  match lookupVec E a, lookupVec E b, lookupVec E c with
  | some va, some vb, some vc =>
    let target := vadd (vsub vb va) vc
    let candidates := E.words.filter (fun p =>
      !(mask.1 && p.1 == a) && !(mask.2.1 && p.1 == b) &&
        !(mask.2.2 && p.1 == c))
    let scored := candidates.map (fun p => (p.1, score target p.2))
    .ok ((scored.mergeSort (fun x y => decide (y.2 ≤ x.2))).take k)
  | _, _, _ =>
    .error [(lookupVec E a).isSome, (lookupVec E b).isSome,
      (lookupVec E c).isSome]

/-- `AnalogyApp::parse`, lines 85-94 of analogy.rs: the `--include` values
(`None` when the flag is absent) are turned into the exclusion mask
`[exclude_a, exclude_b, exclude_c]` by complementing membership. -/
def parse_excludes (includes : Option (List String)) : Bool × Bool × Bool :=
  match includes with
  | some v => (!(v.contains "a"), !(v.contains "b"), !(v.contains "c"))
  | none => (true, true, true)

/-- `print_missing_tokens` (analogy.rs, lines 148-158): the tokens whose
success flag is false, joined with ", " after the fixed prefix, printed to
stderr. -/
def print_missing_tokens (tokens : List String) (successful : List Bool) :
    String :=
  "Could not compute embedding(s) for: " ++
    String.intercalate ", "
      ((tokens.zip successful).filterMap
        (fun p => if p.2 then none else some p.1))

/-- Observable output of the analogy batch loop: a result line on stdout
(`word\tscore`) or a diagnostic line on stderr. -/
inductive OutputEvent where
  | result (word : String) (sim : ℚ)
  | missing (msg : String)
deriving Repr, DecidableEq

/-- The loop of `AnalogyApp::run` (analogy.rs, lines 114-142): per input
line — trim, skip if empty, `ensure!` exactly three tokens (a failure here
aborts the whole run with `Err`), call the solver; a solver error prints the
missing tokens to stderr and continues with the next line. -/
def run_analogy_lines (score : List ℚ → List ℚ → ℚ) (E : EmbeddingCollection)
    (excludes : Bool × Bool × Bool) (k : Nat) :
    List String → Except String (List OutputEvent)
  | [] => .ok []
  | line :: rest =>
    let l := trim_str line
    if l = "" then run_analogy_lines score E excludes k rest
    else
      match split_whitespace l with
      | [a, b, c] =>
        match analogy_masked score E a b c excludes k with
        | .ok results =>
          (run_analogy_lines score E excludes k rest).map
            (fun evs =>
              results.map (fun r => OutputEvent.result r.1 r.2) ++ evs)
        | .error success =>
          (run_analogy_lines score E excludes k rest).map
            (fun evs =>
              OutputEvent.missing (print_missing_tokens [a, b, c] success)
                :: evs)
      | _ => .error ("Query does not consist of three tokens: " ++ l)

/-! ### quantize.rs — configuration checks and the loss report -/

/-- `struct QuantizeApp` configuration fields (quantize.rs, lines 32-42);
the filenames and input format are I/O plumbing and omitted. -/
structure QuantizeConfig where
  n_attempts : Nat
  n_iterations : Nat
  n_subquantizers : Option Nat
  n_threads : Nat
  quantizer : String
  quantizer_bits : Nat
deriving Repr, DecidableEq

/-- The `ensure!` validation of `QuantizeApp::parse` (quantize.rs, lines
176-180), applied after the option values have been parsed: the bits count
must lie in [1, 8], otherwise `parse` returns `Err` and nothing runs. -/
def QuantizeApp.parse (n_attempts n_iterations : Nat)
    (n_subquantizers : Option Nat) (n_threads : Nat) (quantizer : String)
    (quantizer_bits : Nat) : Except String QuantizeConfig :=
  if quantizer_bits > 0 ∧ quantizer_bits ≤ 8 then
    .ok
      { n_attempts := n_attempts
        n_iterations := n_iterations
        n_subquantizers := n_subquantizers
        n_threads := n_threads
        quantizer := quantizer
        quantizer_bits := quantizer_bits }
  else
    .error "The number of quantizer bits should be in [1, 8]"

/-- The closed set of quantizer algorithms (spec §4.4). -/
inductive QuantizerKind where
  | pq
  | opq
  | gaussianOpq
deriving Repr, DecidableEq

/-- The quantizer-training collaborator (`reductive`'s `PQ`, `OPQ`,
`GaussianOPQ` via `Embeddings::quantize`): given the kind, the number of
subquantizers, bits, iterations and attempts, and the storage matrix, it
yields the quantized representation, observed through per-row
reconstructions. -/
structure Trainer where
  train : QuantizerKind → Nat → Nat → Nat → Nat → List (List ℚ) →
    (Nat → List ℚ)

/-- `quantize_embeddings` (quantize.rs, lines 281-321, the full
`feature = "opq"` build covering the whole closed set): the subquantizer
count defaults to `d / 2`; the quantizer-kind string is matched before any
training starts, and an unknown kind calls `process::exit(1)` (modelled as
`.error 1`) without ever invoking the trainer. -/
def quantize_embeddings (T : Trainer) (cfg : QuantizeConfig)
    (storage : List (List ℚ)) : Except Nat (Nat → List ℚ) :=
  let n_subquantizers := cfg.n_subquantizers.getD ((storage.headD []).length / 2)
  match cfg.quantizer with
  | "pq" =>
    .ok (T.train .pq n_subquantizers cfg.quantizer_bits cfg.n_iterations
      cfg.n_attempts storage)
  | "opq" =>
    .ok (T.train .opq n_subquantizers cfg.quantizer_bits cfg.n_iterations
      cfg.n_attempts storage)
  | "gaussian_opq" =>
    .ok (T.train .gaussianOpq n_subquantizers cfg.quantizer_bits
      cfg.n_iterations cfg.n_attempts storage)
  | _ => .error 1

/-- `u.dot(&v)` on equal-length vectors. -/
def dotq (u v : List ℚ) : ℚ := (List.zipWith (· * ·) u v).sum

/-- `cosine_similarity` (quantize.rs, lines 221-225); `sqrt` is the float
square root, an arithmetic primitive outside this model, so it is a
parameter. -/
def cosine_similarity (sqrt : ℚ → ℚ) (u v : List ℚ) : ℚ :=
  let u_norm := sqrt (dotq u u)
  let v_norm := sqrt (dotq v v)
  dotq u v / (u_norm * v_norm)

/-- `euclidean_distance` (quantize.rs, lines 227-230). -/
def euclidean_distance (sqrt : ℚ → ℚ) (u v : List ℚ) : ℚ :=
  let dist_vec := vsub u v
  sqrt (dotq dist_vec dist_vec)

/-- `print_loss` (quantize.rs, lines 232-251): one pass over the original
rows, accumulating the cosine-similarity and euclidean-distance sums against
the reconstruction of the same row index, then dividing each sum by the row
count.  Returns the two printed averages. -/
def print_loss (sqrt : ℚ → ℚ) (storage : List (List ℚ))
    (quantized : Nat → List ℚ) : ℚ × ℚ :=
  let sums := storage.enum.foldl
    (fun acc p =>
      (acc.1 + cosine_similarity sqrt p.2 (quantized p.1),
       acc.2 + euclidean_distance sqrt p.2 (quantized p.1)))
    (0, 0)
  (sums.1 / (storage.length : ℚ), sums.2 / (storage.length : ℚ))

/-- What `QuantizeApp::run` produces: the quantized embeddings written to
the output file, and the two loss averages printed to stderr afterwards. -/
structure QuantizeOutcome where
  written : Nat → List ℚ
  avg_cos : ℚ
  avg_dist : ℚ

/-- `QuantizeApp::run` (quantize.rs, lines 195-218): quantize (propagating
its failure), write the quantized embeddings, then print the loss report. -/
def QuantizeApp.run (sqrt : ℚ → ℚ) (T : Trainer) (cfg : QuantizeConfig)
    (storage : List (List ℚ)) : Except Nat QuantizeOutcome :=
  match quantize_embeddings T cfg storage with
  | .error e => .error e
  | .ok quantized =>
    let loss := print_loss sqrt storage quantized
    .ok { written := quantized, avg_cos := loss.1, avg_dist := loss.2 }

/-! ### reconstruct.rs -/

/-- The quantized embeddings read by `ReconstructApp::run`, after
`into_parts()`: vocabulary size, storage shape and per-row reconstruction
(`storage.embedding(idx)`), and the optional norms chunk. -/
structure QuantizedEmbeddings where
  words_len : Nat
  rows : Nat
  embedding : Nat → List ℚ
  norms : Option (List ℚ)

/-- `reconstruct_storage` (reconstruct.rs, lines 107-113): a dense matrix of
the storage's shape whose row `idx` is assigned `storage.embedding(idx)`. -/
def reconstruct_storage (e : QuantizedEmbeddings) : List (List ℚ) :=
  (List.range e.rows).map e.embedding

/-- The embeddings written out by `ReconstructApp::run`. -/
structure ReconstructedEmbeddings where
  words_len : Nat
  storage : List (List ℚ)
  norms : List ℚ

/-- `ReconstructApp::run` (reconstruct.rs, lines 87-104): reconstruct the
storage densely, then build the output embeddings with `norms.unwrap()` —
when the source carries no norms chunk this `unwrap` panics (modelled as
`none`); no norms are ever recomputed and no row is normalized. -/
def ReconstructApp.run (e : QuantizedEmbeddings) :
    Option ReconstructedEmbeddings :=
  match e.norms with
  | some ns =>
    some { words_len := e.words_len, storage := reconstruct_storage e
           norms := ns }
  | none => none

/-! ### Counter-delta lemmas for the evaluator -/

/-- Every `eval_analogy` update adds fixed deltas to the integer counters of
its section: `dc` to `n_correct`, `di` to `n_instances`, `ds` to
`n_skipped`, with `dc ≤ di` and `di + ds = 1` (each instance is counted
exactly once, as scored or as skipped). -/
theorem instUpdate_fields (E : AnalogyOracle) (i : Instance) :
    ∃ dc di ds : Nat, dc ≤ di ∧ di + ds = 1 ∧
      ∀ c : Counts,
        (instUpdate E i c).n_correct = c.n_correct + dc ∧
        (instUpdate E i c).n_instances = c.n_instances + di ∧
        (instUpdate E i c).n_skipped = c.n_skipped + ds := by
  unfold instUpdate
  by_cases h : E.knownWord i.answer = false
  · exact ⟨0, 0, 1, le_refl 0, rfl, fun c => by simp [h]⟩
  · rcases hr : E.analogy1 i.query.1 i.query.2.1 i.query.2.2 with _ | r
    · exact ⟨0, 1, 0, by omega, rfl, fun c => by simp [h, hr]⟩
    · refine ⟨if r.1 == i.answer then 1 else 0, 1, 0, by split <;> omega,
        rfl, fun c => by simp [h, hr]⟩

theorem sum_field_updateSection (m : SectionCounts) (k : String)
    (f : Counts → Counts) (field : Counts → Nat) (d : Nat)
    (h0 : field Counts.init = 0) (hf : ∀ c, field (f c) = field c + d) :
    ((updateSection m k f).map (fun p => field p.2)).sum
      = (m.map (fun p => field p.2)).sum + d := by
  induction m with
  | nil => simp [updateSection, hf, h0]
  | cons p rest ih =>
    obtain ⟨k', c⟩ := p
    simp only [updateSection]
    by_cases h1 : k < k'
    · rw [if_pos h1]
      simp [hf, h0]
      omega
    · by_cases h2 : k = k'
      · rw [if_neg h1, if_pos h2]
        simp [hf]
        omega
      · rw [if_neg h1, if_neg h2]
        simp [ih]
        omega

theorem eval_totals_step (E : AnalogyOracle) (m : SectionCounts)
    (i : Instance) :
    ∃ dc di ds : Nat, dc ≤ di ∧ di + ds = 1 ∧
      totalCorrect (eval_analogy E m i) = totalCorrect m + dc ∧
      totalInstances (eval_analogy E m i) = totalInstances m + di ∧
      totalSkipped (eval_analogy E m i) = totalSkipped m + ds := by
  obtain ⟨dc, di, ds, hcd, hsum, hfields⟩ := instUpdate_fields E i
  refine ⟨dc, di, ds, hcd, hsum, ?_, ?_, ?_⟩
  · rw [eval_analogy_eq_update]
    exact sum_field_updateSection m i.sect _ (fun c => c.n_correct) dc rfl
      (fun c => (hfields c).1)
  · rw [eval_analogy_eq_update]
    exact sum_field_updateSection m i.sect _ (fun c => c.n_instances) di rfl
      (fun c => (hfields c).2.1)
  · rw [eval_analogy_eq_update]
    exact sum_field_updateSection m i.sect _ (fun c => c.n_skipped) ds rfl
      (fun c => (hfields c).2.2)

theorem eval_section_step (E : AnalogyOracle) (m : SectionCounts)
    (i : Instance) (s : String) (hm : keysSorted m) :
    ∃ dc di ds : Nat, dc ≤ di ∧
      (di + ds = if i.sect = s then 1 else 0) ∧
      (getCounts (eval_analogy E m i) s).n_correct
        = (getCounts m s).n_correct + dc ∧
      (getCounts (eval_analogy E m i) s).n_instances
        = (getCounts m s).n_instances + di ∧
      (getCounts (eval_analogy E m i) s).n_skipped
        = (getCounts m s).n_skipped + ds := by
  obtain ⟨dc, di, ds, hcd, hsum, hfields⟩ := instUpdate_fields E i
  rw [eval_analogy_eq_update]
  rw [getCounts_updateSection m i.sect _ s hm]
  by_cases hs : s = i.sect
  · rw [if_pos hs]
    have hsi : i.sect = s := hs.symm
    refine ⟨dc, di, ds, hcd, by rw [if_pos hsi]; exact hsum, ?_, ?_, ?_⟩
    · rw [hs]; exact (hfields _).1
    · rw [hs]; exact (hfields _).2.1
    · rw [hs]; exact (hfields _).2.2
  · rw [if_neg hs]
    have hsi : ¬i.sect = s := fun h => hs h.symm
    exact ⟨0, 0, 0, le_refl 0, by rw [if_neg hsi], rfl, rfl, rfl⟩

theorem foldl_section_fields (E : AnalogyOracle) (insts : List Instance) :
    ∀ m, keysSorted m → ∀ s : String,
      (getCounts (insts.foldl (eval_analogy E) m) s).n_instances
          + (getCounts (insts.foldl (eval_analogy E) m) s).n_skipped
        = (getCounts m s).n_instances + (getCounts m s).n_skipped
            + insts.countP (fun i => i.sect == s) ∧
      ((getCounts m s).n_correct ≤ (getCounts m s).n_instances →
        (getCounts (insts.foldl (eval_analogy E) m) s).n_correct
          ≤ (getCounts (insts.foldl (eval_analogy E) m) s).n_instances) := by
  induction insts with
  | nil => intro m _ s; simp
  | cons i rest ih =>
    intro m hm s
    have hm' : keysSorted (eval_analogy E m i) := by
      rw [eval_analogy_eq_update]
      exact keysSorted_updateSection _ _ _ hm
    obtain ⟨dc, di, ds, hcd, hsum, hc, hi, hsk⟩ :=
      eval_section_step E m i s hm
    obtain ⟨ihsum, ihle⟩ := ih (eval_analogy E m i) hm' s
    constructor
    · simp only [List.foldl_cons, List.countP_cons] at *
      rw [ihsum, hi, hsk]
      by_cases hisect : i.sect = s
      · rw [if_pos hisect] at hsum
        have : (i.sect == s) = true := beq_iff_eq.mpr hisect
        rw [this]
        simp only [if_pos]
        omega
      · rw [if_neg hisect] at hsum
        have : ¬(i.sect == s) = true := by
          simp [beq_iff_eq]
          exact hisect
        simp only [if_neg this]
        omega
    · intro hle
      simp only [List.foldl_cons]
      apply ihle
      rw [hc, hi]
      by_cases hisect : i.sect = s
      · rw [if_pos hisect] at hsum
        omega
      · rw [if_neg hisect] at hsum
        omega

theorem foldl_total_fields (E : AnalogyOracle) (insts : List Instance) :
    ∀ m,
      totalInstances (insts.foldl (eval_analogy E) m)
          + totalSkipped (insts.foldl (eval_analogy E) m)
        = totalInstances m + totalSkipped m + insts.length ∧
      (totalCorrect m ≤ totalInstances m →
        totalCorrect (insts.foldl (eval_analogy E) m)
          ≤ totalInstances (insts.foldl (eval_analogy E) m)) := by
  induction insts with
  | nil => intro m; simp
  | cons i rest ih =>
    intro m
    obtain ⟨dc, di, ds, hcd, hsum, hc, hi, hsk⟩ := eval_totals_step E m i
    obtain ⟨ihsum, ihle⟩ := ih (eval_analogy E m i)
    constructor
    · simp only [List.foldl_cons, List.length_cons]
      rw [ihsum, hi, hsk]
      omega
    · intro hle
      simp only [List.foldl_cons]
      apply ihle
      omega

/-! ### Claim theorems for the accuracy evaluator -/

/-- C1: for every analogy test instance, `eval_analogy` increments only
`n_skipped` of the instance's section exactly when the gold answer word is
absent from the vocabulary; otherwise it scores the instance with the
unmasked analogy primitive at k = 1, counting it correct iff the single
returned candidate's word equals the gold answer and adding the candidate's
cosine; an unresolvable query is recorded as an incorrect instance with
cosine 0, never as a failure.  Buckets of other sections are untouched. -/
theorem c1_eval_analogy_cases (E : AnalogyOracle) (m : SectionCounts)
    (inst : Instance) (s : String) (hm : keysSorted m) :
    getCounts (eval_analogy E m inst) s =
      if s = inst.sect then
        if E.knownWord inst.answer = false then
          { getCounts m s with n_skipped := (getCounts m s).n_skipped + 1 }
        else
          match E.analogy1 inst.query.1 inst.query.2.1 inst.query.2.2 with
          | some r =>
            { getCounts m s with
              n_instances := (getCounts m s).n_instances + 1
              n_correct := (getCounts m s).n_correct
                + (if r.1 == inst.answer then 1 else 0)
              sum_cos := (getCounts m s).sum_cos + r.2 }
          | none =>
            { getCounts m s with
              n_instances := (getCounts m s).n_instances + 1
              sum_cos := (getCounts m s).sum_cos + 0 }
      else getCounts m s := by
  rw [eval_analogy_eq_update, getCounts_updateSection m inst.sect _ s hm]
  by_cases hs : s = inst.sect
  · rw [if_pos hs, if_pos hs, hs]
    unfold instUpdate
    by_cases h : E.knownWord inst.answer = false
    · rw [if_pos h, if_pos h]
    · rw [if_neg h, if_neg h]
      rcases hr : E.analogy1 inst.query.1 inst.query.2.1 inst.query.2.2
        with _ | r <;> simp [hr]
  · rw [if_neg hs, if_neg hs]

/-- Witness for C1: one concrete instance whose gold answer is missing from
the vocabulary ends up skipped, with all other counters untouched. -/
theorem c1_eval_analogy_cases_witness :
    getCounts
        (eval_analogy ⟨fun _ => false, fun _ _ _ => none⟩ []
          ⟨"capital-world", ("athens", "greece", "baghdad"), "iraq"⟩)
        "capital-world"
      = ⟨0, 0, 1, 0⟩ :=
  (c1_eval_analogy_cases ⟨fun _ => false, fun _ _ _ => none⟩ []
      ⟨"capital-world", ("athens", "greece", "baghdad"), "iraq"⟩
      "capital-world" List.Pairwise.nil).trans (by decide)

/-- C2: after processing any instance list, every section satisfies
`n_correct ≤ n_instances` and `n_instances + n_skipped` equals the number of
instances of that section, and the two relations also hold globally. -/
theorem c2_count_invariants (E : AnalogyOracle) (insts : List Instance) :
    (∀ s : String,
      (getCounts (process_analogies E insts) s).n_correct
          ≤ (getCounts (process_analogies E insts) s).n_instances ∧
      (getCounts (process_analogies E insts) s).n_instances
          + (getCounts (process_analogies E insts) s).n_skipped
        = insts.countP (fun i => i.sect == s)) ∧
    totalCorrect (process_analogies E insts)
        ≤ totalInstances (process_analogies E insts) ∧
    totalInstances (process_analogies E insts)
        + totalSkipped (process_analogies E insts)
      = insts.length := by
  refine ⟨fun s => ?_, ?_, ?_⟩
  · obtain ⟨hsum, hle⟩ := foldl_section_fields E insts [] List.Pairwise.nil s
    exact ⟨hle (by simp [getCounts, Counts.init]),
      by simpa [getCounts, Counts.init] using hsum⟩
  · exact (foldl_total_fields E insts []).2
      (by simp [totalCorrect, totalInstances])
  · simpa [totalInstances, totalSkipped] using (foldl_total_fields E insts []).1

/-- C9: the aggregate is invariant under any reordering of the instance
list: every instance contributes once to exactly one section bucket, and
the bucket updates commute, so the parallel aggregation is
order-independent. -/
theorem c9_order_independence (E : AnalogyOracle) {l₁ l₂ : List Instance}
    (h : l₁.Perm l₂) :
    process_analogies E l₁ = process_analogies E l₂ :=
  foldl_eval_perm E h []

/-- Witness for C9: swapping two concrete instances leaves the final
section-counts map unchanged. -/
theorem c9_order_independence_witness :
    process_analogies ⟨fun _ => true, fun _ _ _ => some ("queen", 9/10)⟩
        [⟨"family", ("king", "man", "woman"), "queen"⟩,
         ⟨"capital", ("paris", "france", "berlin"), "germany"⟩]
      = process_analogies ⟨fun _ => true, fun _ _ _ => some ("queen", 9/10)⟩
        [⟨"capital", ("paris", "france", "berlin"), "germany"⟩,
         ⟨"family", ("king", "man", "woman"), "queen"⟩] :=
  c9_order_independence _ (List.Perm.swap _ _ _)

/-- C3 counterexample: on a corpus whose single instance is skipped (gold
answer out of vocabulary), the global instance count is zero, yet the report
still performs the two final divisions — their denominators are zero, so
the claim that they are guarded like the per-section division is false. -/
theorem c3_globals_unguarded_counterexample :
    totalInstances (process_analogies ⟨fun _ => false, fun _ _ _ => none⟩
        [⟨"capital-world", ("athens", "greece", "baghdad"), "iraq"⟩]) = 0 ∧
    globals_guarded (drop_report (process_analogies
        ⟨fun _ => false, fun _ _ _ => none⟩
        [⟨"capital-world", ("athens", "greece", "baghdad"), "iraq"⟩]))
      = false := by
  constructor <;> decide

/-- C3 (amended): the report prints sections in lexicographic key order and
prints "no evaluation instances" for any zero-instance section instead of
dividing, but the two final global lines are emitted unconditionally: on a
corpus with zero scored instances they perform divisions with denominator
zero (IEEE NaN output) — they are not guarded the way sections are. -/
theorem c3_report_order_and_guards (E : AnalogyOracle)
    (insts : List Instance) :
    List.Pairwise (fun a b => a < b)
        ((process_analogies E insts).map Prod.fst) ∧
    (∀ p ∈ process_analogies E insts, p.2.n_instances = 0 →
      print_section_accuracy p.1 p.2 = ReportLine.noInstances p.1) ∧
    (totalInstances (process_analogies E insts) = 0 →
      globals_guarded (drop_report (process_analogies E insts)) = false) := by
  refine ⟨List.pairwise_map.mpr (keysSorted_process E insts), ?_, ?_⟩
  · intro p _ h0
    simp [print_section_accuracy, h0]
  · intro h0
    simp only [totalInstances] at h0
    simp [globals_guarded, drop_report, h0]

/-- Witness for C3 (amended) on the concrete skipped-instance corpus. -/
theorem c3_report_order_and_guards_witness :
    (totalInstances (process_analogies ⟨fun _ => false, fun _ _ _ => none⟩
        [⟨"capital-world", ("athens", "greece", "baghdad"), "iraq"⟩]) = 0) ∧
    globals_guarded (drop_report (process_analogies
        ⟨fun _ => false, fun _ _ _ => none⟩
        [⟨"capital-world", ("athens", "greece", "baghdad"), "iraq"⟩]))
      = false :=
  ⟨by decide,
   (c3_report_order_and_guards ⟨fun _ => false, fun _ _ _ => none⟩
      [⟨"capital-world", ("athens", "greece", "baghdad"), "iraq"⟩]).2.2
     (by decide)⟩

/-- C10: any input line that is not a section header and splits into fewer
than four whitespace-separated tokens — a blank line included — makes
`read_analogies` hit an out-of-bounds index (a Rust panic, modelled as
`none`), aborting the whole evaluation regardless of the other lines. -/
theorem c10_read_analogies_panics {lines : List String} {l : String}
    (hl : l ∈ lines) (hhdr : l.startsWith ": " = false)
    (hshort : (split_whitespace l).length < 4) :
    read_analogies lines = none := by
  unfold read_analogies
  suffices h : ∀ ls, l ∈ ls → ∀ sect, read_analogies_go sect ls = none from
    h lines hl ""
  intro ls
  induction ls with
  | nil => intro h; cases h
  | cons x rest ih =>
    intro hm sect
    rcases List.mem_cons.mp hm with h | h
    · subst h
      unfold read_analogies_go
      rw [hhdr]
      simp only [Bool.false_eq_true, if_false]
      rcases hsp : split_whitespace l
        with _ | ⟨t0, _ | ⟨t1, _ | ⟨t2, _ | ⟨t3, ts⟩⟩⟩⟩
      · rfl
      · rfl
      · rfl
      · rfl
      · rw [hsp] at hshort
        simp at hshort
        omega
    · unfold read_analogies_go
      by_cases hx : x.startsWith ": "
      · simp [hx, ih h]
      · simp only [hx, Bool.false_eq_true, if_false]
        rcases hsp : split_whitespace x
          with _ | ⟨t0, _ | ⟨t1, _ | ⟨t2, _ | ⟨t3, ts⟩⟩⟩⟩ <;>
          simp [ih h]

/-- Witness for C10: a well-formed line followed by a blank line still
aborts the whole read. -/
theorem c10_read_analogies_panics_witness :
    ("" ∈ ["athens greece baghdad iraq", ""] ∧
      "".startsWith ": " = false ∧ (split_whitespace "").length < 4) ∧
    read_analogies ["athens greece baghdad iraq", ""] = none :=
  ⟨⟨by decide, by decide, by decide⟩,
   @c10_read_analogies_panics ["athens greece baghdad iraq", ""] ""
     (by decide) (by decide) (by decide)⟩

/-! ### Claim theorems for the analogy CLI -/

/-- C5: for a query whose three tokens are all present, the solver
succeeds with at most `k` results, every token whose exclusion flag is set
is absent from the results, and the default mask (no `--include` flags)
excludes all three tokens. -/
theorem c5_solve_mask (score : List ℚ → List ℚ → ℚ) (E : EmbeddingCollection)
    (a b c : String) (mask : Bool × Bool × Bool) (k : Nat)
    (ha : (lookupVec E a).isSome = true) (hb : (lookupVec E b).isSome = true)
    (hc : (lookupVec E c).isSome = true) :
    ∃ rs, analogy_masked score E a b c mask k = .ok rs ∧
      rs.length ≤ k ∧
      (mask.1 = true → ∀ q ∈ rs, q.1 ≠ a) ∧
      (mask.2.1 = true → ∀ q ∈ rs, q.1 ≠ b) ∧
      (mask.2.2 = true → ∀ q ∈ rs, q.1 ≠ c) ∧
      parse_excludes none = (true, true, true) := by
  obtain ⟨va, hva⟩ := Option.isSome_iff_exists.mp ha
  obtain ⟨vb, hvb⟩ := Option.isSome_iff_exists.mp hb
  obtain ⟨vc, hvc⟩ := Option.isSome_iff_exists.mp hc
  unfold analogy_masked
  rw [hva, hvb, hvc]
  refine ⟨_, rfl, List.length_take_le k _, ?_, ?_, ?_, rfl⟩
  · intro hmask q hq
    obtain ⟨p, hp, hpq⟩ := List.mem_map.mp
      (List.mem_mergeSort.mp (List.mem_of_mem_take hq))
    have hcond := (List.mem_filter.mp hp).2
    simp [hmask] at hcond
    intro heq
    rw [← hpq] at heq
    simp at heq
    exact hcond.1.1 heq
  · intro hmask q hq
    obtain ⟨p, hp, hpq⟩ := List.mem_map.mp
      (List.mem_mergeSort.mp (List.mem_of_mem_take hq))
    have hcond := (List.mem_filter.mp hp).2
    simp [hmask] at hcond
    intro heq
    rw [← hpq] at heq
    simp at heq
    exact hcond.1.2 heq
  · intro hmask q hq
    obtain ⟨p, hp, hpq⟩ := List.mem_map.mp
      (List.mem_mergeSort.mp (List.mem_of_mem_take hq))
    have hcond := (List.mem_filter.mp hp).2
    simp [hmask] at hcond
    intro heq
    rw [← hpq] at heq
    simp at heq
    exact hcond.2 heq

/-- Witness for C5: a four-word vocabulary, default mask, k = 1. -/
theorem c5_solve_mask_witness :
    ∃ rs, analogy_masked dotq
        ⟨[("a", [1]), ("b", [2]), ("c", [3]), ("d", [4])]⟩
        "a" "b" "c" (true, true, true) 1 = .ok rs ∧
      rs.length ≤ 1 ∧
      ((true, true, true).1 = true → ∀ q ∈ rs, q.1 ≠ "a") ∧
      ((true, true, true).2.1 = true → ∀ q ∈ rs, q.1 ≠ "b") ∧
      ((true, true, true).2.2 = true → ∀ q ∈ rs, q.1 ≠ "c") ∧
      parse_excludes none = (true, true, true) :=
  c5_solve_mask dotq ⟨[("a", [1]), ("b", [2]), ("c", [3]), ("d", [4])]⟩
    "a" "b" "c" (true, true, true) 1 (by decide) (by decide) (by decide)

/-- C6: when some query token has no embedding, the solver fails with the
3-element success mask of resolvable tokens; the caller prints exactly the
unresolved tokens on stderr and continues with the rest of the batch. -/
theorem c6_missing_tokens (score : List ℚ → List ℚ → ℚ)
    (E : EmbeddingCollection) (exc : Bool × Bool × Bool) (k : Nat)
    (line : String) (rest : List String) (a b c : String)
    (hsplit : split_whitespace (trim_str line) = [a, b, c])
    (hne : ¬trim_str line = "")
    (hmiss : ((lookupVec E a).isSome && (lookupVec E b).isSome
        && (lookupVec E c).isSome) = false) :
    analogy_masked score E a b c exc k
      = .error [(lookupVec E a).isSome, (lookupVec E b).isSome,
          (lookupVec E c).isSome] ∧
    print_missing_tokens [a, b, c]
        [(lookupVec E a).isSome, (lookupVec E b).isSome,
         (lookupVec E c).isSome]
      = "Could not compute embedding(s) for: " ++ String.intercalate ", "
          ([a, b, c].filter (fun t => !(lookupVec E t).isSome)) ∧
    run_analogy_lines score E exc k (line :: rest)
      = (run_analogy_lines score E exc k rest).map
          (fun evs =>
            OutputEvent.missing (print_missing_tokens [a, b, c]
              [(lookupVec E a).isSome, (lookupVec E b).isSome,
               (lookupVec E c).isSome]) :: evs) := by
  have herr : analogy_masked score E a b c exc k
      = .error [(lookupVec E a).isSome, (lookupVec E b).isSome,
          (lookupVec E c).isSome] := by
    unfold analogy_masked
    rcases hA : lookupVec E a with _ | va <;>
      rcases hB : lookupVec E b with _ | vb <;>
        rcases hC : lookupVec E c with _ | vc <;>
          simp_all
  refine ⟨herr, ?_, ?_⟩
  · rcases hA : lookupVec E a with _ | va <;>
      rcases hB : lookupVec E b with _ | vb <;>
        rcases hC : lookupVec E c with _ | vc <;>
          simp [print_missing_tokens, List.filter, hA, hB, hC]
  · conv_lhs => rw [run_analogy_lines]
    simp [hne, hsplit, herr]

/-- Witness for C6: the token `a` is missing from a two-word vocabulary;
the batch continues after the stderr diagnostic. -/
theorem c6_missing_tokens_witness :
    analogy_masked dotq ⟨[("b", [1]), ("c", [2])]⟩ "a" "b" "c"
        (true, true, true) 10
      = .error [(lookupVec ⟨[("b", [1]), ("c", [2])]⟩ "a").isSome,
          (lookupVec ⟨[("b", [1]), ("c", [2])]⟩ "b").isSome,
          (lookupVec ⟨[("b", [1]), ("c", [2])]⟩ "c").isSome] ∧
    print_missing_tokens ["a", "b", "c"]
        [(lookupVec ⟨[("b", [1]), ("c", [2])]⟩ "a").isSome,
         (lookupVec ⟨[("b", [1]), ("c", [2])]⟩ "b").isSome,
         (lookupVec ⟨[("b", [1]), ("c", [2])]⟩ "c").isSome]
      = "Could not compute embedding(s) for: " ++ String.intercalate ", "
          (["a", "b", "c"].filter
            (fun t => !(lookupVec ⟨[("b", [1]), ("c", [2])]⟩ t).isSome)) ∧
    run_analogy_lines dotq ⟨[("b", [1]), ("c", [2])]⟩ (true, true, true) 10
        ["a b c"]
      = (run_analogy_lines dotq ⟨[("b", [1]), ("c", [2])]⟩ (true, true, true)
          10 []).map
          (fun evs =>
            OutputEvent.missing (print_missing_tokens ["a", "b", "c"]
              [(lookupVec ⟨[("b", [1]), ("c", [2])]⟩ "a").isSome,
               (lookupVec ⟨[("b", [1]), ("c", [2])]⟩ "b").isSome,
               (lookupVec ⟨[("b", [1]), ("c", [2])]⟩ "c").isSome]) :: evs) :=
  c6_missing_tokens dotq ⟨[("b", [1]), ("c", [2])]⟩ (true, true, true) 10
    "a b c" [] "a" "b" "c" (by decide) (by decide) (by decide)

/-! ### Claim theorems for quantize.rs -/

/-- C7: configuration errors are pre-flight and fatal: `parse` accepts a
configuration exactly when the bits count is in [1, 8], and an unsupported
quantizer kind makes `quantize_embeddings` exit before invoking the trainer
(the result does not depend on the trainer), so `run` fails with no output
written. -/
theorem c7_config_errors (sqrt : ℚ → ℚ) :
    (∀ (na ni : Nat) (ns : Option Nat) (nt : Nat) (q : String) (bits : Nat),
      (QuantizeApp.parse na ni ns nt q bits).isOk = true
        ↔ (1 ≤ bits ∧ bits ≤ 8)) ∧
    (∀ (T : Trainer) (cfg : QuantizeConfig) (storage : List (List ℚ)),
      cfg.quantizer ∉ (["pq", "opq", "gaussian_opq"] : List String) →
        quantize_embeddings T cfg storage = .error 1 ∧
        QuantizeApp.run sqrt T cfg storage = .error 1 ∧
        (∀ T' : Trainer, quantize_embeddings T cfg storage
            = quantize_embeddings T' cfg storage)) := by
  constructor
  · intro na ni ns nt q bits
    unfold QuantizeApp.parse
    by_cases hb : bits > 0 ∧ bits ≤ 8
    · rw [if_pos hb]
      simp only [Except.isOk, Except.toBool]
      simp only [true_iff]
      omega
    · rw [if_neg hb]
      simp only [Except.isOk, Except.toBool]
      simp only [Bool.false_eq_true, false_iff]
      omega
  · intro T cfg storage h
    have hq : ∀ T₀ : Trainer, quantize_embeddings T₀ cfg storage = .error 1 := by
      intro T₀
      unfold quantize_embeddings
      split
      · exact absurd (by simp_all) h
      · exact absurd (by simp_all) h
      · exact absurd (by simp_all) h
      · rfl
    refine ⟨hq T, ?_, fun T' => (hq T).trans (hq T').symm⟩
    unfold QuantizeApp.run
    rw [hq T]

/-- Witness for C7: bits = 0 is rejected by `parse`, and the unknown kind
"foo" makes quantization and the whole run exit without output. -/
theorem c7_config_errors_witness :
    ((QuantizeApp.parse 1 100 none 4 "pq" 0).isOk = true ↔ (1 ≤ 0 ∧ 0 ≤ 8)) ∧
    quantize_embeddings ⟨fun _ _ _ _ _ _ => fun _ => []⟩
        ⟨1, 100, none, 4, "foo", 8⟩ [[1]] = .error 1 ∧
    QuantizeApp.run (fun x => x) ⟨fun _ _ _ _ _ _ => fun _ => []⟩
        ⟨1, 100, none, 4, "foo", 8⟩ [[1]] = .error 1 :=
  ⟨(c7_config_errors (fun x => x)).1 1 100 none 4 "pq" 0,
   ((c7_config_errors (fun x => x)).2 ⟨fun _ _ _ _ _ _ => fun _ => []⟩
      ⟨1, 100, none, 4, "foo", 8⟩ [[1]] (by decide)).1,
   ((c7_config_errors (fun x => x)).2 ⟨fun _ _ _ _ _ _ => fun _ => []⟩
      ⟨1, 100, none, 4, "foo", 8⟩ [[1]] (by decide)).2.1⟩

theorem foldl_pair_sum {α : Type} (l : List α) (f g : α → ℚ) (a b : ℚ) :
    l.foldl (fun acc x => (acc.1 + f x, acc.2 + g x)) (a, b)
      = (a + (l.map f).sum, b + (l.map g).sum) := by
  induction l generalizing a b with
  | nil => simp
  | cons x xs ih => simp [ih, add_assoc]

/-- C8: the loss pipeline averages, over all original rows, the cosine
similarity and the euclidean distance between each row and its
reconstruction (sums divided by the row count); the metrics are diagnostic
only — `run` succeeds exactly when quantization does, and the written
output does not depend on them. -/
theorem c8_loss_metrics (sqrt : ℚ → ℚ) (storage : List (List ℚ))
    (quantized : Nat → List ℚ) :
    print_loss sqrt storage quantized
      = ((storage.enum.map
            (fun p => cosine_similarity sqrt p.2 (quantized p.1))).sum
            / (storage.length : ℚ),
         (storage.enum.map
            (fun p => euclidean_distance sqrt p.2 (quantized p.1))).sum
            / (storage.length : ℚ)) ∧
    ∀ (T : Trainer) (cfg : QuantizeConfig),
      (QuantizeApp.run sqrt T cfg storage).isOk
        = (quantize_embeddings T cfg storage).isOk ∧
      ∀ sqrt' : ℚ → ℚ,
        (QuantizeApp.run sqrt T cfg storage).map QuantizeOutcome.written
          = (QuantizeApp.run sqrt' T cfg storage).map QuantizeOutcome.written := by
  constructor
  · unfold print_loss
    rw [foldl_pair_sum]
    simp
  · intro T cfg
    constructor
    · unfold QuantizeApp.run
      cases hq : quantize_embeddings T cfg storage <;>
        simp [Except.isOk, Except.toBool, hq]
    · intro sqrt'
      unfold QuantizeApp.run
      cases hq : quantize_embeddings T cfg storage <;>
        simp [hq, Except.map]

/-! ### Claim theorem for reconstruct.rs -/

/-- C4 (code evidence at the failing input): with the norms chunk absent,
`ReconstructApp::run` hits `norms.unwrap()` — a panic, not a recomputation —
and `reconstruct_storage` copies every row unchanged: row 0 of this example
keeps squared norm 25, so no L2 normalization is applied to any row. -/
theorem c4_reconstruct_requires_norms :
    ReconstructApp.run ⟨2, 3, fun i => [(i : ℚ) + 3, 4], none⟩ = none ∧
    reconstruct_storage ⟨2, 3, fun i => [(i : ℚ) + 3, 4], none⟩
      = [[3, 4], [4, 4], [5, 4]] ∧
    dotq [3, 4] [3, 4] = 25 := by
  refine ⟨rfl, ?_, by norm_num [dotq]⟩
  simp [reconstruct_storage, List.range_succ]
  norm_num

end FFUtils
